import Mathlib

set_option maxHeartbeats 1000000

/-!
Verification of the chipfoundry TinyTapeout automation scripts against their
specification. The definitions below are shallow embeddings of the three
Python scripts `get_project.py`, `process_tt_project.py` and
`copy_hardened_project.py`: pure data transformations are translated as Lean
functions, and each script's interaction with the filesystem and with
subprocesses is abstracted as an explicit environment record holding the
outcome of every external effect, so that the scripts' control flow becomes a
total function from environments to observable results.
-/

namespace TTScripts

/-- A scalar value as it appears in a parsed `info.yaml` mapping: YAML
strings and integers are the only value shapes the scripts inspect. -/
inductive YamlValue
  | str (s : String)
  | int (n : Int)
deriving DecidableEq, Repr

/-- Rendering of a scalar the way Python `str` prints it inside an f-string. -/
def YamlValue.toPyStr : YamlValue → String
  | .str s => s
  | .int n => toString n

/-- Python `str.lower()` on the string's characters. -/
def strLower (s : String) : String := ⟨s.data.map Char.toLower⟩

/-- First-match association-list lookup, mirroring Python dict access
(`d[k]`, `k in d`, `d.get(k)`). -/
def lookupKey {α : Type} (k : String) : List (String × α) → Option α
  | [] => none
  | (k', v) :: rest => if k' = k then some v else lookupKey k rest

/-- Top-level mapping of a successfully YAML-parsed `info.yaml`: section name
to section contents. -/
structure InfoYaml where
  sections : List (String × List (String × YamlValue))
deriving DecidableEq, Repr

/-- Result of `parse_info_yaml` in get_project.py: the dictionaries
`(type = wokwi, id = ...)` and `(type = verilog, top_module = ...)`. -/
inductive ParsedInfo
  | wokwi (wokwiId : YamlValue)
  | verilog (topModule : YamlValue)
deriving DecidableEq, Repr

/-- Branch of `parse_info_yaml` on the lowercased language value
(get_project.py lines 100-122): `wokwi` requires a `wokwi_id` field,
`verilog` requires a `top_module` field, anything else is an error. -/
def classifyByLanguage (language : String) (pd : List (String × YamlValue)) :
    Option ParsedInfo :=
  if language = "wokwi" then
    match lookupKey "wokwi_id" pd with
    | some wokwi_id => some (.wokwi wokwi_id)
    | none => none
  else if language = "verilog" then
    match lookupKey "top_module" pd with
    | some top_module => some (.verilog top_module)
    | none => none
  else none

/-- Body of `parse_info_yaml` applied to the `project` section: the script
reads `language` with default empty string and lowercases it; calling
`.lower()` on a non-string value raises `AttributeError`, which the
surrounding handler turns into a parse failure. -/
def parseProjectData (pd : List (String × YamlValue)) : Option ParsedInfo :=
  match lookupKey "language" pd with
  | none => classifyByLanguage "" pd
  | some (.str s) => classifyByLanguage (strLower s) pd
  | some (.int _) => none

/-- `parse_info_yaml` (get_project.py lines 81-129). `fileExists` models the
`info.yaml` existence check; `yamlData` is `none` when `yaml.safe_load`
fails or does not yield a mapping. -/
def parse_info_yaml (fileExists : Bool) (yamlData : Option InfoYaml) :
    Option ParsedInfo :=
  if fileExists = false then none
  else
    match yamlData with
    | none => none
    | some d =>
      match lookupKey "project" d.sections with
      | none => none
      | some pd => parseProjectData pd

/-- Directory name chosen by `main` from the parse result
(get_project.py lines 268-272). -/
def new_dir_name : ParsedInfo → String
  | .wokwi wokwiId => "tt_um_wokwi_" ++ wokwiId.toPyStr
  | .verilog topModule => topModule.toPyStr

/-- Outcomes of the external effects of one run of `get_project.py main`
after URL validation and target-directory choice: whether `git clone`
succeeds, what `info.yaml` holds, whether the final rename succeeds, and
whether a `KeyboardInterrupt` or another unexpected exception fires during
the processing of the clone. -/
structure GetProjectEnv where
  cloneOk : Bool
  infoFileExists : Bool
  yamlData : Option InfoYaml
  renameOk : Bool
  interrupt : Bool
  unexpected : Bool
deriving DecidableEq, Repr

/-- Observable result of a run of `get_project.py main`: the process exit
code, whether the cloned directory was removed again, and the name the
directory was renamed to on success. -/
structure GetResult where
  exitCode : Nat
  dirRemoved : Bool
  finalName : Option String
deriving DecidableEq, Repr

/-- `main` of get_project.py (lines 254-298). A clone failure exits 1 with
no cleanup to do; an interrupt or unexpected exception after the clone is
caught, the clone is removed and the script exits 1; a metadata parse
failure removes the clone and exits 1; otherwise the directory is renamed
to `new_dir_name`, and if that rename fails the script exits 1 without
removing the clone. -/
def get_project_main (env : GetProjectEnv) : GetResult :=
  if env.cloneOk = false then ⟨1, false, none⟩
  else if env.interrupt = true then ⟨1, true, none⟩
  else if env.unexpected = true then ⟨1, true, none⟩
  else
    match parse_info_yaml env.infoFileExists env.yamlData with
    | none => ⟨1, true, none⟩
    | some info =>
      if env.renameOk = true then ⟨0, false, some (new_dir_name info)⟩
      else ⟨1, false, none⟩

/-- Metadata-error conditions enumerated by the spec for get_project: the
metadata file is missing, there is no `project` section, the language is
neither wokwi nor verilog, or the field required by the language is
missing. -/
def claimedBadMetadata (fileExists : Bool) (yamlData : Option InfoYaml) : Bool :=
  if fileExists = false then true
  else
    match yamlData with
    | none => false
    | some d =>
      match lookupKey "project" d.sections with
      | none => true
      | some pd =>
        match lookupKey "language" pd with
        | some (.int _) => false
        | some (.str s) =>
          if strLower s = "wokwi" then (lookupKey "wokwi_id" pd).isNone
          else if strLower s = "verilog" then (lookupKey "top_module" pd).isNone
          else true
        | none => true

/-- Sample well-formed wokwi metadata used for concrete runs. -/
def wokwiInfo : InfoYaml :=
  ⟨[("project", [("language", YamlValue.str "Wokwi"),
                 ("wokwi_id", YamlValue.int 123456789)])]⟩

/-- Sample well-formed verilog metadata used for concrete runs. -/
def verilogInfo : InfoYaml :=
  ⟨[("project", [("language", YamlValue.str "Verilog"),
                 ("top_module", YamlValue.str "tt_um_example")])]⟩

/-- One row of `project_manifest.csv` as written by
`update_project_manifest` (process_tt_project.py lines 75-96). -/
structure ManifestRow where
  project_name : String
  github_url : String
  project_directory : String
  processed_date : String
  status : String
deriving DecidableEq, Repr

/-- Core of `update_project_manifest` (process_tt_project.py lines 98-112):
scan for the first row whose `github_url` matches the new entry, replace it
in place if found, otherwise append the new entry at the end. -/
def upsertRow (new_entry : ManifestRow) : List ManifestRow → List ManifestRow
  | [] => [new_entry]
  | r :: rest =>
    if r.github_url = new_entry.github_url then new_entry :: rest
    else r :: upsertRow new_entry rest

/-- `update_project_manifest` (process_tt_project.py lines 68-124) as a
transformation of the manifest rows: the new entry is built from the
arguments with status `completed` and upserted keyed by `github_url`. -/
def update_project_manifest (existing : List ManifestRow)
    (project_name github_url project_dir processed_date : String) :
    List ManifestRow :=
  upsertRow ⟨project_name, github_url, project_dir, processed_date, "completed"⟩
    existing

/-- The five toolchain steps of process_tt_project.py that go through
`run_command` after the project directory is entered. -/
inductive TtStep
  | cloneTools
  | userConfig
  | harden
  | submission
  | copyFiles
deriving DecidableEq, Repr

/-- The order in which process_tt_project.py invokes its toolchain steps. -/
def canonicalSteps : List TtStep :=
  [TtStep.cloneTools, TtStep.userConfig, TtStep.harden, TtStep.submission,
   TtStep.copyFiles]

/-- Toolchain steps that come strictly after the given one in the canonical
order. -/
def laterSteps : TtStep → List TtStep
  | .cloneTools => [TtStep.userConfig, TtStep.harden, TtStep.submission, TtStep.copyFiles]
  | .userConfig => [TtStep.harden, TtStep.submission, TtStep.copyFiles]
  | .harden => [TtStep.submission, TtStep.copyFiles]
  | .submission => [TtStep.copyFiles]
  | .copyFiles => []

/-- Outcomes of the subprocess invocations of one run of
process_tt_project.py: `getProjectOk` is the initial get_project.py call,
`dirParsed` whether its output yields a project directory, `chdirOk` the
directory change, then one flag per toolchain step and one for the final
manifest update. -/
structure PipelineEnv where
  getProjectOk : Bool
  dirParsed : Bool
  chdirOk : Bool
  cloneToolsOk : Bool
  userConfigOk : Bool
  hardenOk : Bool
  submissionOk : Bool
  copyOk : Bool
  manifestOk : Bool
deriving DecidableEq, Repr

/-- Success flag of a given toolchain step in a given environment. -/
def stepOk (env : PipelineEnv) : TtStep → Bool
  | .cloneTools => env.cloneToolsOk
  | .userConfig => env.userConfigOk
  | .harden => env.hardenOk
  | .submission => env.submissionOk
  | .copyFiles => env.copyOk

/-- `main` of process_tt_project.py (lines 127-265): the toolchain steps it
invokes, in order, and the process exit code. Each failed `run_command`
prints an error and calls `sys.exit(1)` before the next step; a manifest
failure only prints a message and the script still finishes with exit 0. -/
def process_tt_main (env : PipelineEnv) : List TtStep × Nat :=
  if env.getProjectOk = false then ([], 1)
  else if env.dirParsed = false then ([], 1)
  else if env.chdirOk = false then ([], 1)
  else if env.cloneToolsOk = false then ([TtStep.cloneTools], 1)
  else if env.userConfigOk = false then
    ([TtStep.cloneTools, TtStep.userConfig], 1)
  else if env.hardenOk = false then
    ([TtStep.cloneTools, TtStep.userConfig, TtStep.harden], 1)
  else if env.submissionOk = false then
    ([TtStep.cloneTools, TtStep.userConfig, TtStep.harden, TtStep.submission], 1)
  else if env.copyOk = false then
    (canonicalSteps, 1)
  else (canonicalSteps, 0)

/-- A JSON value inside `commit_id.json`, as far as the script inspects it. -/
inductive JVal
  | num (n : Int)
  | str (s : String)
deriving DecidableEq, Repr

/-- Result of `fix_commit_id_json`: the file contents afterwards, whether
the file was rewritten, and the reported success flag. -/
structure FixResult where
  contents : List (String × JVal)
  rewritten : Bool
  ok : Bool
deriving DecidableEq, Repr

/-- `fix_commit_id_json` (copy_hardened_project.py lines 30-56) on a
well-formed JSON object: when `sort_id` is absent it is appended with the
current time in milliseconds and the file rewritten, otherwise the file is
left untouched; both paths return `True`. -/
def fix_commit_id_json (data : List (String × JVal)) (now_ms : Int) : FixResult :=
  match lookupKey "sort_id" data with
  | none => ⟨data ++ [("sort_id", JVal.num now_ms)], true, true⟩
  | some _ => ⟨data, false, true⟩

/-- Boolean list membership with decidable string equality, mirroring the
existence and `in` tests of the script. -/
def memB (x : String) : List String → Bool
  | [] => false
  | y :: ys => if y = x then true else memB x ys

/-- Filesystem operations issued by copy_hardened_project.py: directory
creation (`os.makedirs` with `exist_ok`), file copy (`shutil.copy2`),
directory copy (`shutil.copytree`), directory removal (`shutil.rmtree`) and
the in-place `commit_id.json` patch. -/
inductive FsOp
  | makedirs (path : String)
  | copyFile (src dst : String)
  | copyTree (src dst : String)
  | rmtree (path : String)
  | fixJson (path : String)
deriving DecidableEq, Repr

/-- `os.path.flatten` for the simple relative paths the script builds. -/
def joinPath (a b : String) : String := a ++ "/" ++ b

/-- `os.path.dirname`: everything before the last slash, empty if none. -/
def dirname (p : String) : String :=
  String.intercalate "/" ((p.splitOn "/").dropLast)

/-- `os.path.basename`: everything after the last slash. -/
def basename (p : String) : String := (p.splitOn "/").getLastD p

/-- Static list of (source, destination) relative paths
(copy_hardened_project.py lines 120-127); `wokwi-diagram.json` is the
optional entry. -/
def items_to_copy : List (String × String) :=
  [("docs/info.md", "docs/info.md"),
   ("tt_submission/stats", "stats"),
   ("LICENSE", "LICENSE"),
   ("tt_submission/commit_id.json", "commit_id.json"),
   ("info.yaml", "info.yaml"),
   ("wokwi-diagram.json", "wokwi-diagram.json")]

/-- The four glob patterns (copy_hardened_project.py lines 153-158). -/
def file_patterns : List String :=
  ["tt_submission/*.gds", "tt_submission/*.lef", "tt_submission/*.oas",
   "tt_submission/*.v"]

/-- Abstract filesystem facts consumed by one run of
`copy_hardened_project`: whether the source and projects directories exist,
which relative paths exist under the source directory and which of those
are directories, which destination paths already exist, the relative paths
matched by each of the four glob patterns, and which source paths make
their copy raise an exception. -/
structure CopyEnv where
  srcDirExists : Bool
  projectsDirExists : Bool
  srcItems : List String
  srcDirItems : List String
  dstExisting : List String
  globGds : List String
  globLef : List String
  globOas : List String
  globV : List String
  failing : List String
deriving Repr

/-- All glob matches in the pattern order of the script. -/
def CopyEnv.globAll (env : CopyEnv) : List String :=
  env.globGds ++ env.globLef ++ env.globOas ++ env.globV

/-- `copy_file_or_dir` (copy_hardened_project.py lines 59-77): the
operations it performs and whether it reports success. A directory source
first removes an already existing destination and then `copytree`s; a file
source first creates the destination's parent directory and then `copy2`s.
`srcRel` is the source path relative to the source directory. -/
def copy_file_or_dir (env : CopyEnv) (srcRel src dst : String) :
    List FsOp × Bool :=
  if memB srcRel env.srcDirItems then
    ((if memB dst env.dstExisting then [FsOp.rmtree dst] else [])
       ++ [FsOp.copyTree src dst],
     !memB srcRel env.failing)
  else
    ([FsOp.makedirs (dirname dst), FsOp.copyFile src dst],
     !memB srcRel env.failing)

/-- Per-item processing of the static copy list (copy_hardened_project.py
lines 130-150): an existing source is attempted (counted) and, if it is the
`commit_id.json` and its copy succeeded, patched afterwards; a missing
source only produces a warning (or a note for the optional file) and is not
attempted. Returns the operations and the attempts as (source, success). -/
def copyItemStep (env : CopyEnv) (src_dir dstDir : String)
    (item : String × String) : List FsOp × List (String × Bool) :=
  let src_path := joinPath src_dir item.1
  let dst_path := joinPath dstDir item.2
  if memB item.1 env.srcItems then
    let r := copy_file_or_dir env item.1 src_path dst_path
    if item.1 = "tt_submission/commit_id.json" && r.2 then
      (r.1 ++ [FsOp.fixJson dst_path], [(item.1, r.2)])
    else (r.1, [(item.1, r.2)])
  else ([], [])

/-- Per-file processing of one glob match (copy_hardened_project.py lines
160-169): the file is copied to the destination directory under its
basename. -/
def copyGlobStep (env : CopyEnv) (src_dir dstDir : String) (fileRel : String) :
    List FsOp × List (String × Bool) :=
  let r := copy_file_or_dir env fileRel (joinPath src_dir fileRel)
    (joinPath dstDir (basename fileRel))
  (r.1, [(fileRel, r.2)])

/-- Observable outcome of `copy_hardened_project`: the filesystem
operations in order, the attempted copies as (source, success), and the
returned success flag. -/
structure CopyOutcome where
  ops : List FsOp
  attempts : List (String × Bool)
  success : Bool
deriving Repr

/-- `copy_hardened_project` (copy_hardened_project.py lines 91-184): after
checking that the source and projects directories exist, the destination
project directory is created, the static items and then the glob matches
are copied, and the function returns whether the success count equals the
number of attempted operations. -/
def copy_hardened_project (env : CopyEnv)
    (src_dir project_name projects_dir : String) : CopyOutcome :=
  if env.srcDirExists = false then ⟨[], [], false⟩
  else if env.projectsDirExists = false then ⟨[], [], false⟩
  else
    let dstDir := joinPath projects_dir project_name
    let allResults := items_to_copy.map (copyItemStep env src_dir dstDir)
      ++ env.globAll.map (copyGlobStep env src_dir dstDir)
    let attempts := (allResults.map Prod.snd).flatten
    ⟨FsOp.makedirs dstDir :: (allResults.map Prod.fst).flatten,
     attempts,
     decide (attempts.countP Prod.snd = attempts.length)⟩

/-- Checker for the directory-preparation invariant over an operation
trace: scanning left to right while collecting the directories passed to
`makedirs`, every file copy requires both the destination project directory
and its own destination's parent to have been created, and every directory
copy requires the destination project directory to have been created. -/
def copiesPrepared (dstDir : String) : List String → List FsOp → Bool
  | _, [] => true
  | made, FsOp.makedirs d :: rest => copiesPrepared dstDir (d :: made) rest
  | made, FsOp.copyFile _ d :: rest =>
    memB dstDir made && memB (dirname d) made && copiesPrepared dstDir made rest
  | made, FsOp.copyTree _ _ :: rest =>
    memB dstDir made && copiesPrepared dstDir made rest
  | made, FsOp.rmtree _ :: rest => copiesPrepared dstDir made rest
  | made, FsOp.fixJson _ :: rest => copiesPrepared dstDir made rest

/-- Source paths of the copy operations in a trace. -/
def copySrcs : List FsOp → List String
  | [] => []
  | FsOp.copyFile s _ :: r => s :: copySrcs r
  | FsOp.copyTree s _ :: r => s :: copySrcs r
  | _ :: r => copySrcs r

/-- The only source paths `copy_hardened_project` is allowed to copy: the
six static items plus the matches of the four glob patterns. -/
def allowedSrcs (env : CopyEnv) (src_dir : String) : List String :=
  items_to_copy.map (fun it => joinPath src_dir it.1)
    ++ env.globAll.map (joinPath src_dir)

/-- Concrete environment where the required `docs/info.md`, `LICENSE` and
`tt_submission/stats` are all missing from the source and no attempted copy
fails. -/
def envMissingRequired : CopyEnv :=
  ⟨true, true, ["info.yaml", "tt_submission/commit_id.json"], [], [],
   ["tt_submission/top.gds"], [], [], [], []⟩

/-! Helper lemmas. -/

theorem claimedBadMetadata_parse_none (fe : Bool) (yd : Option InfoYaml)
    (h : claimedBadMetadata fe yd = true) : parse_info_yaml fe yd = none := by
  cases fe with
  | false => simp [parse_info_yaml]
  | true =>
    cases yd with
    | none => simp [claimedBadMetadata] at h
    | some d =>
      cases hp : lookupKey "project" d.sections with
      | none => simp [parse_info_yaml, hp]
      | some pd =>
        simp only [claimedBadMetadata, hp] at h
        simp only [parse_info_yaml, hp, parseProjectData]
        cases hl : lookupKey "language" pd with
        | none =>
          simp [classifyByLanguage]
        | some v =>
          cases v with
          | int n => rfl
          | str s =>
            simp only [hl] at h
            by_cases hw : strLower s = "wokwi"
            · simp only [hw, if_pos rfl] at h
              simp only [classifyByLanguage, if_pos hw]
              cases hid : lookupKey "wokwi_id" pd with
              | none => rfl
              | some v => simp [hid] at h
            · rw [if_neg hw] at h
              by_cases hv : strLower s = "verilog"
              · simp only [hv, if_pos rfl] at h
                simp only [classifyByLanguage, if_neg hw, if_pos hv]
                cases htm : lookupKey "top_module" pd with
                | none => rfl
                | some v => simp [htm] at h
              · simp [classifyByLanguage, hw, hv]

/-! Claim theorems for get_project.py. -/

/-- C1: for every successfully cloned repository whose metadata has a
project section with language `wokwi` (case-insensitively) and a
`wokwi_id` field, get_project renames the cloned directory to
`tt_um_wokwi_` followed by the id; with language `verilog` and a
`top_module` field it renames it to exactly the top module. -/
theorem get_project_renames_by_language
    (env : GetProjectEnv) (d : InfoYaml) (pd : List (String × YamlValue))
    (s : String)
    (hclone : env.cloneOk = true) (hint : env.interrupt = false)
    (hunexp : env.unexpected = false) (hren : env.renameOk = true)
    (hfile : env.infoFileExists = true) (hdata : env.yamlData = some d)
    (hproj : lookupKey "project" d.sections = some pd)
    (hlang : lookupKey "language" pd = some (YamlValue.str s)) :
    (strLower s = "wokwi" → ∀ v, lookupKey "wokwi_id" pd = some v →
      get_project_main env = ⟨0, false, some ("tt_um_wokwi_" ++ v.toPyStr)⟩)
    ∧ (strLower s = "verilog" → ∀ v, lookupKey "top_module" pd = some v →
      get_project_main env = ⟨0, false, some v.toPyStr⟩) := by
  constructor
  · intro hw v hv
    simp [get_project_main, hclone, hint, hunexp, parse_info_yaml, hfile, hdata,
      hproj, parseProjectData, hlang, classifyByLanguage, hw, hv, hren,
      new_dir_name]
  · intro hw v hv
    have hnw : ¬ strLower s = "wokwi" := by rw [hw]; decide
    simp [get_project_main, hclone, hint, hunexp, parse_info_yaml, hfile, hdata,
      hproj, parseProjectData, hlang, classifyByLanguage, hw, hnw, hv, hren,
      new_dir_name]

/-- Witness for C1: concrete wokwi and verilog runs produce the specified
directory names. -/
theorem get_project_renames_by_language_witness :
    get_project_main ⟨true, true, some wokwiInfo, true, false, false⟩
      = ⟨0, false, some "tt_um_wokwi_123456789"⟩
    ∧ get_project_main ⟨true, true, some verilogInfo, true, false, false⟩
      = ⟨0, false, some "tt_um_example"⟩ := by
  constructor
  · exact (get_project_renames_by_language
      ⟨true, true, some wokwiInfo, true, false, false⟩ wokwiInfo
      [("language", YamlValue.str "Wokwi"), ("wokwi_id", YamlValue.int 123456789)]
      "Wokwi" rfl rfl rfl rfl rfl rfl (by decide) (by decide)).1 (by decide)
      (YamlValue.int 123456789) (by decide)
  · exact (get_project_renames_by_language
      ⟨true, true, some verilogInfo, true, false, false⟩ verilogInfo
      [("language", YamlValue.str "Verilog"),
       ("top_module", YamlValue.str "tt_um_example")]
      "Verilog" rfl rfl rfl rfl rfl rfl (by decide) (by decide)).2 (by decide)
      (YamlValue.str "tt_um_example") (by decide)

/-- C6: whenever the metadata file is missing, has no project section, has
a language other than wokwi or verilog, or lacks the field its language
requires, get_project exits non-zero without renaming the directory (the
clone is removed). -/
theorem get_project_metadata_errors_exit_nonzero (env : GetProjectEnv)
    (hclone : env.cloneOk = true) (hint : env.interrupt = false)
    (hunexp : env.unexpected = false)
    (hbad : claimedBadMetadata env.infoFileExists env.yamlData = true) :
    get_project_main env = ⟨1, true, none⟩ := by
  have hp := claimedBadMetadata_parse_none _ _ hbad
  simp [get_project_main, hclone, hint, hunexp, hp]

/-- Witness for C6: a concrete run with an unsupported language exits 1
without renaming. -/
theorem get_project_metadata_errors_exit_nonzero_witness :
    get_project_main ⟨true, true,
        some ⟨[("project", [("language", YamlValue.str "VHDL")])]⟩,
        true, false, false⟩ = ⟨1, true, none⟩ :=
  get_project_metadata_errors_exit_nonzero
    ⟨true, true, some ⟨[("project", [("language", YamlValue.str "VHDL")])]⟩,
      true, false, false⟩ rfl rfl rfl (by decide)

/-- C9: the language is matched case-insensitively: two project sections
that differ only in the case of the language string are classified
identically by `parse_info_yaml`'s body. -/
theorem parse_language_case_insensitive
    (pd : List (String × YamlValue)) (s t : String)
    (h : strLower s = strLower t) :
    parseProjectData (("language", YamlValue.str s) :: pd)
      = parseProjectData (("language", YamlValue.str t) :: pd) := by
  have hk : ∀ (k : String), k ≠ "language" → ∀ v : YamlValue,
      lookupKey k (("language", v) :: pd) = lookupKey k pd := by
    intro k hkne v
    simp only [lookupKey]
    rw [if_neg (fun hh => hkne hh.symm)]
  have e1 : lookupKey "language" (("language", YamlValue.str s) :: pd)
      = some (YamlValue.str s) := by
    simp [lookupKey]
  have e2 : lookupKey "language" (("language", YamlValue.str t) :: pd)
      = some (YamlValue.str t) := by
    simp [lookupKey]
  simp only [parseProjectData, e1, e2, h]
  simp only [classifyByLanguage, hk "wokwi_id" (by decide),
    hk "top_module" (by decide)]

/-- Witness for C9: `Wokwi`, `WOKWI` and `wokwi` (and `Verilog` versus
`verilog`) classify a concrete project identically. -/
theorem parse_language_case_insensitive_witness :
    parseProjectData [("language", YamlValue.str "Wokwi"),
        ("wokwi_id", YamlValue.int 123)]
      = parseProjectData [("language", YamlValue.str "wokwi"),
        ("wokwi_id", YamlValue.int 123)]
    ∧ parseProjectData [("language", YamlValue.str "WOKWI"),
        ("wokwi_id", YamlValue.int 123)]
      = parseProjectData [("language", YamlValue.str "wokwi"),
        ("wokwi_id", YamlValue.int 123)]
    ∧ parseProjectData [("language", YamlValue.str "Verilog"),
        ("top_module", YamlValue.str "m")]
      = parseProjectData [("language", YamlValue.str "verilog"),
        ("top_module", YamlValue.str "m")] :=
  ⟨parse_language_case_insensitive [("wokwi_id", YamlValue.int 123)]
      "Wokwi" "wokwi" (by decide),
   parse_language_case_insensitive [("wokwi_id", YamlValue.int 123)]
      "WOKWI" "wokwi" (by decide),
   parse_language_case_insensitive [("top_module", YamlValue.str "m")]
      "Verilog" "verilog" (by decide)⟩

/-- C10 counterexample: when the final rename fails, get_project exits
non-zero but the cloned directory is not removed, so a partially processed
clone is left in the working directory. -/
theorem get_project_rename_failure_leaves_clone :
    (get_project_main ⟨true, true, some wokwiInfo, false, false, false⟩).exitCode
        = 1
    ∧ (get_project_main
        ⟨true, true, some wokwiInfo, false, false, false⟩).dirRemoved = false := by
  decide

/-- C10 amended: after a successful clone, a metadata parse failure, a user
interrupt or an unexpected exception removes the cloned directory before
exiting non-zero; a rename failure instead exits non-zero with the cloned
directory left in place. -/
theorem get_project_cleanup_on_failure (env : GetProjectEnv)
    (hclone : env.cloneOk = true) :
    (parse_info_yaml env.infoFileExists env.yamlData = none
        ∨ env.interrupt = true ∨ env.unexpected = true →
      get_project_main env = ⟨1, true, none⟩)
    ∧ (env.interrupt = false → env.unexpected = false → env.renameOk = false →
        (∃ info, parse_info_yaml env.infoFileExists env.yamlData = some info) →
      get_project_main env = ⟨1, false, none⟩) := by
  constructor
  · intro h
    rcases h with h | h | h
    · cases hi : env.interrupt with
      | true => simp [get_project_main, hclone, hi]
      | false =>
        cases hu : env.unexpected with
        | true => simp [get_project_main, hclone, hi, hu]
        | false => simp [get_project_main, hclone, hi, hu, h]
    · simp [get_project_main, hclone, h]
    · cases hi : env.interrupt with
      | true => simp [get_project_main, hclone, hi]
      | false => simp [get_project_main, hclone, hi, h]
  · intro hi hu hr ⟨info, hinfo⟩
    simp [get_project_main, hclone, hi, hu, hinfo, hr]

/-- Witness for the amended C10: concrete cleanup and no-cleanup runs. -/
theorem get_project_cleanup_on_failure_witness :
    get_project_main ⟨true, false, none, true, false, false⟩ = ⟨1, true, none⟩
    ∧ get_project_main ⟨true, true, some wokwiInfo, false, false, false⟩
        = ⟨1, false, none⟩ :=
  ⟨(get_project_cleanup_on_failure ⟨true, false, none, true, false, false⟩
      rfl).1 (Or.inl rfl),
   (get_project_cleanup_on_failure
      ⟨true, true, some wokwiInfo, false, false, false⟩ rfl).2 rfl rfl rfl
      ⟨ParsedInfo.wokwi (YamlValue.int 123456789), by decide⟩⟩

/-! Lemmas about the manifest upsert. -/

theorem upsertRow_countP (e : ManifestRow) (rows : List ManifestRow)
    (h : rows.countP (fun r => r.github_url == e.github_url) ≤ 1) :
    (upsertRow e rows).countP (fun r => r.github_url == e.github_url) = 1 := by
  induction rows with
  | nil => simp [upsertRow]
  | cons r rest ih =>
    by_cases hr : r.github_url = e.github_url
    · rw [upsertRow, if_pos hr]
      have h2 := h
      simp [List.countP_cons, hr] at h2
      have hrest : rest.countP (fun r => r.github_url == e.github_url) = 0 :=
        List.countP_eq_zero.mpr (by simpa using h2)
      simp [List.countP_cons, hrest]
    · rw [upsertRow, if_neg hr]
      have hle : rest.countP (fun r => r.github_url == e.github_url) ≤ 1 := by
        have := h
        simp only [List.countP_cons] at this
        omega
      simp only [List.countP_cons, ih hle]
      simp [hr]

theorem upsertRow_mem_eq (e : ManifestRow) (rows : List ManifestRow)
    (h : rows.countP (fun r => r.github_url == e.github_url) ≤ 1) :
    ∀ r ∈ upsertRow e rows, r.github_url = e.github_url → r = e := by
  induction rows with
  | nil =>
    intro r hr _
    simpa [upsertRow] using hr
  | cons r0 rest ih =>
    intro r hr hurl
    by_cases h0 : r0.github_url = e.github_url
    · rw [upsertRow, if_pos h0] at hr
      rcases List.mem_cons.mp hr with rfl | hmem
      · rfl
      · exfalso
        have h2 := h
        simp [List.countP_cons, h0] at h2
        exact h2 r hmem hurl
    · rw [upsertRow, if_neg h0] at hr
      rcases List.mem_cons.mp hr with rfl | hmem
      · exact absurd hurl h0
      · have hle : rest.countP (fun r => r.github_url == e.github_url) ≤ 1 := by
          have := h
          simp only [List.countP_cons] at this
          omega
        exact ih hle r hmem hurl

theorem upsertRow_filter_ne (e : ManifestRow) (rows : List ManifestRow) :
    (upsertRow e rows).filter (fun r => !(r.github_url == e.github_url))
      = rows.filter (fun r => !(r.github_url == e.github_url)) := by
  induction rows with
  | nil => simp [upsertRow]
  | cons r0 rest ih =>
    by_cases h0 : r0.github_url = e.github_url
    · rw [upsertRow, if_pos h0]
      simp [List.filter_cons, h0]
    · rw [upsertRow, if_neg h0]
      simp [List.filter_cons, h0, ih]

/-! Claim theorems for process_tt_project.py. -/

/-- C2 counterexample: on a manifest that already holds two rows with the
same github_url, the update replaces only the first one, so the resulting
manifest still holds two rows with that URL. -/
theorem update_manifest_duplicate_counterexample :
    (update_project_manifest
        [⟨"a", "u", "d1", "t1", "completed"⟩, ⟨"b", "u", "d2", "t2", "completed"⟩]
        "p" "u" "d" "t").countP (fun r => r.github_url == "u") = 2 := by
  decide

/-- C2 amended: on a manifest holding at most one row with the given
github_url, the update leaves exactly one row with that URL, that row is the
newly built entry (last write wins), and the rows with other URLs are
unchanged. -/
theorem update_manifest_unique_upsert (rows : List ManifestRow)
    (pn url dir date : String)
    (huniq : rows.countP (fun r => r.github_url == url) ≤ 1) :
    (update_project_manifest rows pn url dir date).countP
        (fun r => r.github_url == url) = 1
    ∧ (∀ r ∈ update_project_manifest rows pn url dir date,
        r.github_url = url → r = ⟨pn, url, dir, date, "completed"⟩)
    ∧ (update_project_manifest rows pn url dir date).filter
          (fun r => !(r.github_url == url))
        = rows.filter (fun r => !(r.github_url == url)) :=
  ⟨upsertRow_countP ⟨pn, url, dir, date, "completed"⟩ rows huniq,
   upsertRow_mem_eq ⟨pn, url, dir, date, "completed"⟩ rows huniq,
   upsertRow_filter_ne ⟨pn, url, dir, date, "completed"⟩ rows⟩

/-- Witness for the amended C2: updating a concrete one-row manifest with a
new URL appends exactly one matching row. -/
theorem update_manifest_unique_upsert_witness :
    (update_project_manifest [⟨"a", "v", "d1", "t1", "completed"⟩]
        "p" "u" "d" "t").countP (fun r => r.github_url == "u") = 1 :=
  (update_manifest_unique_upsert [⟨"a", "v", "d1", "t1", "completed"⟩]
    "p" "u" "d" "t" (by decide)).1

/-- C3: the pipeline invokes its toolchain steps strictly in the canonical
sequence (the invoked steps always form a prefix of it), and whenever an
invoked step's subprocess fails the exit code is non-zero and no later
toolchain step is invoked. -/
theorem process_tt_pipeline_sequential_abort :
    ∀ a b c d e f g h i : Bool,
      ((process_tt_main ⟨a, b, c, d, e, f, g, h, i⟩).1 <+: canonicalSteps)
      ∧ (∀ s ∈ (process_tt_main ⟨a, b, c, d, e, f, g, h, i⟩).1,
          stepOk ⟨a, b, c, d, e, f, g, h, i⟩ s = false →
          (process_tt_main ⟨a, b, c, d, e, f, g, h, i⟩).2 ≠ 0
          ∧ ∀ u ∈ laterSteps s,
              u ∉ (process_tt_main ⟨a, b, c, d, e, f, g, h, i⟩).1) := by
  decide

/-- Witness for C3: when hardening fails, the exit code is non-zero and the
submission and copy steps are never invoked. -/
theorem process_tt_pipeline_sequential_abort_witness :
    (process_tt_main ⟨true, true, true, true, true, false, true, true, true⟩).2 ≠ 0
    ∧ ∀ u ∈ laterSteps TtStep.harden,
        u ∉ (process_tt_main
          ⟨true, true, true, true, true, false, true, true, true⟩).1 :=
  (process_tt_pipeline_sequential_abort true true true true true false true true
    true).2 TtStep.harden (by decide) rfl

/-! Claim theorem for fix_commit_id_json. -/

/-- C4: on every well-formed commit_id.json, the function reports success,
rewrites the file exactly when `sort_id` is absent (appending the field),
and leaves the contents untouched when `sort_id` is present. -/
theorem fix_commit_id_adds_sort_id_iff_missing (data : List (String × JVal))
    (now_ms : Int) :
    (fix_commit_id_json data now_ms).ok = true
    ∧ (fix_commit_id_json data now_ms).rewritten
        = (lookupKey "sort_id" data).isNone
    ∧ ((lookupKey "sort_id" data).isSome →
        (fix_commit_id_json data now_ms).contents = data)
    ∧ (lookupKey "sort_id" data = none →
        (fix_commit_id_json data now_ms).contents
          = data ++ [("sort_id", JVal.num now_ms)]) := by
  cases h : lookupKey "sort_id" data <;> simp [fix_commit_id_json, h]

/-- Witness for C4: a file without `sort_id` gains the field, a file with it
is returned unchanged. -/
theorem fix_commit_id_adds_sort_id_iff_missing_witness :
    (fix_commit_id_json [("commit", JVal.str "abc")] 5).contents
      = [("commit", JVal.str "abc"), ("sort_id", JVal.num 5)]
    ∧ (fix_commit_id_json [("sort_id", JVal.num 1)] 5).contents
      = [("sort_id", JVal.num 1)] :=
  ⟨(fix_commit_id_adds_sort_id_iff_missing [("commit", JVal.str "abc")] 5).2.2.2
      (by decide),
   (fix_commit_id_adds_sort_id_iff_missing [("sort_id", JVal.num 1)] 5).2.2.1
      (by decide)⟩

/-! Lemmas about membership and the copy trace. -/

theorem memB_iff_mem (x : String) (l : List String) : memB x l = true ↔ x ∈ l := by
  induction l with
  | nil => simp [memB]
  | cons y ys ih =>
    simp only [memB, List.mem_cons]
    by_cases hy : y = x
    · subst hy; simp
    · rw [if_neg hy, ih]
      constructor
      · exact fun h => Or.inr h
      · rintro (h | h)
        · exact absurd h.symm hy
        · exact h

theorem memB_of_cons (x y : String) (l : List String) (h : memB x l = true) :
    memB x (y :: l) = true := by
  by_cases hy : y = x
  · simp [memB, hy]
  · simp only [memB]
    rw [if_neg hy]
    exact h

theorem memB_head (x : String) (l : List String) : memB x (x :: l) = true := by
  simp [memB]

theorem copiesPrepared_append (dstDir : String) (ys : List FsOp)
    (hy : ∀ m, memB dstDir m = true → copiesPrepared dstDir m ys = true) :
    ∀ (xs : List FsOp) (m : List String), memB dstDir m = true →
      copiesPrepared dstDir m xs = true →
      copiesPrepared dstDir m (xs ++ ys) = true := by
  intro xs
  induction xs with
  | nil =>
    intro m hm _
    exact hy m hm
  | cons op rest ih =>
    intro m hm hx
    cases op with
    | makedirs d =>
      simp only [copiesPrepared, List.cons_append] at hx ⊢
      exact ih (d :: m) (memB_of_cons _ _ _ hm) hx
    | copyFile s d =>
      simp only [copiesPrepared, List.cons_append, Bool.and_eq_true] at hx ⊢
      exact ⟨hx.1, ih m hm hx.2⟩
    | copyTree s d =>
      simp only [copiesPrepared, List.cons_append, Bool.and_eq_true] at hx ⊢
      exact ⟨hx.1, ih m hm hx.2⟩
    | rmtree p =>
      simp only [copiesPrepared, List.cons_append] at hx ⊢
      exact ih m hm hx
    | fixJson p =>
      simp only [copiesPrepared, List.cons_append] at hx ⊢
      exact ih m hm hx

theorem copiesPrepared_flatten (dstDir : String) (ls : List (List FsOp))
    (h : ∀ l ∈ ls, ∀ m, memB dstDir m = true → copiesPrepared dstDir m l = true) :
    ∀ m, memB dstDir m = true → copiesPrepared dstDir m ls.flatten = true := by
  induction ls with
  | nil =>
    intro m hm
    rfl
  | cons l ls ih =>
    intro m hm
    simp only [List.flatten_cons]
    exact copiesPrepared_append dstDir ls.flatten
      (ih fun l2 hl2 => h l2 (List.mem_cons_of_mem _ hl2)) l m hm
      (h l (List.mem_cons_self _ _) m hm)

theorem copy_file_or_dir_prepared (env : CopyEnv) (dstDir srcRel src dst : String)
    (m : List String) (hm : memB dstDir m = true) :
    copiesPrepared dstDir m (copy_file_or_dir env srcRel src dst).1 = true := by
  unfold copy_file_or_dir
  by_cases h1 : memB srcRel env.srcDirItems
  · by_cases h2 : memB dst env.dstExisting <;>
      simp [h1, h2, copiesPrepared, hm]
  · simp [h1, copiesPrepared, hm, memB_of_cons _ _ _ hm, memB_head]

theorem copyItemStep_prepared (env : CopyEnv) (src_dir dstDir : String)
    (item : String × String) (m : List String) (hm : memB dstDir m = true) :
    copiesPrepared dstDir m (copyItemStep env src_dir dstDir item).1 = true := by
  simp only [copyItemStep]
  by_cases h1 : memB item.1 env.srcItems = true
  · rw [if_pos h1]
    by_cases h3 :
        (item.1 = "tt_submission/commit_id.json"
          && (copy_file_or_dir env item.1 (joinPath src_dir item.1)
              (joinPath dstDir item.2)).2) = true
    · rw [if_pos h3]
      exact copiesPrepared_append dstDir [FsOp.fixJson (joinPath dstDir item.2)]
        (fun m2 _ => rfl) _ m hm
        (copy_file_or_dir_prepared env dstDir item.1 _ _ m hm)
    · rw [if_neg h3]
      exact copy_file_or_dir_prepared env dstDir item.1 _ _ m hm
  · rw [if_neg h1]
    rfl

theorem copyGlobStep_prepared (env : CopyEnv) (src_dir dstDir : String)
    (fileRel : String) (m : List String) (hm : memB dstDir m = true) :
    copiesPrepared dstDir m (copyGlobStep env src_dir dstDir fileRel).1 = true := by
  unfold copyGlobStep
  exact copy_file_or_dir_prepared env dstDir fileRel _ _ m hm

/-! Claim theorems for copy_hardened_project.py. -/

/-- C5: a missing projects (or source) directory aborts before any
operation; otherwise the destination project directory is created as the
very first operation, and along the whole trace every file copy happens
only after `makedirs` of both the destination project directory and the
copy's own parent directory, and every directory copy only after the
destination project directory was created. -/
theorem copy_hardened_destination_prepared (env : CopyEnv)
    (src_dir project_name projects_dir : String) :
    (env.srcDirExists = false ∨ env.projectsDirExists = false →
      (copy_hardened_project env src_dir project_name projects_dir).ops = [])
    ∧ (env.srcDirExists = true → env.projectsDirExists = true →
        (copy_hardened_project env src_dir project_name projects_dir).ops.head?
          = some (FsOp.makedirs (joinPath projects_dir project_name)))
    ∧ copiesPrepared (joinPath projects_dir project_name) []
        (copy_hardened_project env src_dir project_name projects_dir).ops
        = true := by
  cases hs : env.srcDirExists with
  | false =>
    refine ⟨fun _ => ?_, fun h1 _ => by simp at h1, ?_⟩
    · simp [copy_hardened_project, hs]
    · simp [copy_hardened_project, hs, copiesPrepared]
  | true =>
    cases hp : env.projectsDirExists with
    | false =>
      refine ⟨fun _ => ?_, fun _ h2 => by simp at h2, ?_⟩
      · simp [copy_hardened_project, hs, hp]
      · simp [copy_hardened_project, hs, hp, copiesPrepared]
    | true =>
      refine ⟨fun h => ?_, fun _ _ => ?_, ?_⟩
      · rcases h with h | h
        · simp at h
        · simp at h
      · simp [copy_hardened_project, hs, hp]
      · simp only [copy_hardened_project, hs, hp]
        simp only [Bool.true_eq_false, if_false]
        simp only [copiesPrepared]
        refine copiesPrepared_flatten _ _ ?_ _
          (memB_head (joinPath projects_dir project_name) [])
        intro l hl m hm
        rcases List.mem_map.mp hl with ⟨pr, hpr, rfl⟩
        rcases List.mem_append.mp hpr with h2 | h2
        · rcases List.mem_map.mp h2 with ⟨it, _, rfl⟩
          exact copyItemStep_prepared env src_dir _ it m hm
        · rcases List.mem_map.mp h2 with ⟨f, _, rfl⟩
          exact copyGlobStep_prepared env src_dir _ f m hm

/-- Witness for C5: in a concrete run the trace starts by creating the
destination project directory and the preparation invariant holds. -/
theorem copy_hardened_destination_prepared_witness :
    (copy_hardened_project envMissingRequired "src" "tt_um_x" "projects").ops.head?
      = some (FsOp.makedirs (joinPath "projects" "tt_um_x"))
    ∧ (copy_hardened_project ⟨false, true, [], [], [], [], [], [], [], []⟩
        "s" "n" "p").ops = [] :=
  ⟨(copy_hardened_destination_prepared envMissingRequired "src" "tt_um_x"
      "projects").2.1 rfl rfl,
   (copy_hardened_destination_prepared ⟨false, true, [], [], [], [], [], [], [], []⟩
      "s" "n" "p").1 (Or.inl rfl)⟩

/-! Lemmas about copy sources and attempts. -/

theorem copySrcs_append (xs ys : List FsOp) :
    copySrcs (xs ++ ys) = copySrcs xs ++ copySrcs ys := by
  induction xs with
  | nil => rfl
  | cons op rest ih => cases op <;> simp [copySrcs, ih]

theorem copy_file_or_dir_srcs (env : CopyEnv) (srcRel src dst : String) :
    copySrcs (copy_file_or_dir env srcRel src dst).1 = [src] := by
  by_cases h1 : memB srcRel env.srcDirItems = true
  · by_cases h2 : memB dst env.dstExisting = true <;>
      simp [copy_file_or_dir, h1, h2, copySrcs]
  · simp [copy_file_or_dir, h1, copySrcs]

theorem copy_file_or_dir_snd (env : CopyEnv) (srcRel src dst : String) :
    (copy_file_or_dir env srcRel src dst).2 = !memB srcRel env.failing := by
  by_cases h1 : memB srcRel env.srcDirItems = true <;>
    simp [copy_file_or_dir, h1]

theorem copyItemStep_srcs (env : CopyEnv) (src_dir dstDir : String)
    (item : String × String) :
    ∀ x ∈ copySrcs (copyItemStep env src_dir dstDir item).1,
      x = joinPath src_dir item.1 := by
  intro x hx
  simp only [copyItemStep] at hx
  by_cases h1 : memB item.1 env.srcItems = true
  · rw [if_pos h1] at hx
    by_cases h3 :
        (item.1 = "tt_submission/commit_id.json"
          && (copy_file_or_dir env item.1 (joinPath src_dir item.1)
              (joinPath dstDir item.2)).2) = true
    · rw [if_pos h3] at hx
      rw [copySrcs_append, copy_file_or_dir_srcs] at hx
      simpa [copySrcs] using hx
    · rw [if_neg h3] at hx
      rw [copy_file_or_dir_srcs] at hx
      simpa using hx
  · rw [if_neg h1] at hx
    simp [copySrcs] at hx

theorem copyGlobStep_srcs (env : CopyEnv) (src_dir dstDir fileRel : String) :
    copySrcs (copyGlobStep env src_dir dstDir fileRel).1
      = [joinPath src_dir fileRel] := by
  simp only [copyGlobStep]
  exact copy_file_or_dir_srcs env fileRel _ _

theorem mem_copySrcs_flatten (x : String) (ls : List (List FsOp))
    (h : x ∈ copySrcs ls.flatten) : ∃ l ∈ ls, x ∈ copySrcs l := by
  induction ls with
  | nil => simp [copySrcs] at h
  | cons l ls ih =>
    rw [List.flatten_cons, copySrcs_append] at h
    rcases List.mem_append.mp h with h2 | h2
    · exact ⟨l, List.mem_cons_self _ _, h2⟩
    · rcases ih h2 with ⟨l2, hl2, hx⟩
      exact ⟨l2, List.mem_cons_of_mem _ hl2, hx⟩

theorem copyItemStep_snd (env : CopyEnv) (src_dir dstDir : String)
    (item : String × String) :
    (copyItemStep env src_dir dstDir item).2
      = if memB item.1 env.srcItems = true
          then [(item.1, !memB item.1 env.failing)] else [] := by
  simp only [copyItemStep]
  by_cases h1 : memB item.1 env.srcItems = true
  · rw [if_pos h1, if_pos h1]
    by_cases h3 :
        (item.1 = "tt_submission/commit_id.json"
          && (copy_file_or_dir env item.1 (joinPath src_dir item.1)
              (joinPath dstDir item.2)).2) = true
    · rw [if_pos h3, copy_file_or_dir_snd]
    · rw [if_neg h3, copy_file_or_dir_snd]
  · rw [if_neg h1, if_neg h1]

theorem itemAttempts_eq (env : CopyEnv) (src_dir dstDir : String)
    (items : List (String × String)) :
    ((items.map (copyItemStep env src_dir dstDir)).map Prod.snd).flatten
      = (items.filter (fun it => memB it.1 env.srcItems)).map
          (fun it => (it.1, !memB it.1 env.failing)) := by
  induction items with
  | nil => rfl
  | cons it items ih =>
    simp only [List.map_cons, List.flatten_cons, List.filter_cons,
      copyItemStep_snd, ih]
    by_cases h1 : memB it.1 env.srcItems = true
    · simp [h1]
    · simp [h1]

theorem globAttempts_eq (env : CopyEnv) (src_dir dstDir : String)
    (files : List String) :
    ((files.map (copyGlobStep env src_dir dstDir)).map Prod.snd).flatten
      = files.map (fun f => (f, !memB f env.failing)) := by
  induction files with
  | nil => rfl
  | cons f files ih =>
    simp only [List.map_cons, List.flatten_cons, ih]
    simp [copyGlobStep, copy_file_or_dir_snd]

/-- C7: every source path ever copied by `copy_hardened_project` comes from
the fixed static list of six (source, destination) pairs or from the
matches of the four glob patterns; no other file is copied. -/
theorem copy_hardened_only_allowed_sources (env : CopyEnv)
    (src_dir project_name projects_dir : String) :
    (copySrcs (copy_hardened_project env src_dir project_name
        projects_dir).ops).all
      (fun x => memB x (allowedSrcs env src_dir)) = true := by
  cases hs : env.srcDirExists with
  | false => simp [copy_hardened_project, hs, copySrcs]
  | true =>
    cases hp : env.projectsDirExists with
    | false => simp [copy_hardened_project, hs, hp, copySrcs]
    | true =>
      rw [List.all_eq_true]
      intro x hx
      simp only [copy_hardened_project, hs, hp, Bool.true_eq_false, if_false] at hx
      simp only [copySrcs] at hx
      rcases mem_copySrcs_flatten x _ hx with ⟨l, hl, hxl⟩
      rw [memB_iff_mem]
      rcases List.mem_map.mp hl with ⟨pr, hpr, rfl⟩
      rcases List.mem_append.mp hpr with h2 | h2
      · rcases List.mem_map.mp h2 with ⟨it, hit, rfl⟩
        have hx2 := copyItemStep_srcs env src_dir _ it x hxl
        subst hx2
        exact List.mem_append_left _
          (List.mem_map.mpr ⟨it, hit, rfl⟩)
      · rcases List.mem_map.mp h2 with ⟨f, hf, rfl⟩
        rw [copyGlobStep_srcs] at hxl
        rcases List.mem_singleton.mp hxl with rfl
        exact List.mem_append_right _
          (List.mem_map.mpr ⟨f, hf, rfl⟩)

/-- C8: with both directories present, the attempted copies are exactly the
static items that exist in the source plus all glob matches (a missing
required item is skipped and not counted), and the function returns success
exactly when every attempted copy succeeded - so missing required files
never make it return failure. -/
theorem copy_hardened_missing_skipped_success (env : CopyEnv)
    (src_dir project_name projects_dir : String)
    (h1 : env.srcDirExists = true) (h2 : env.projectsDirExists = true) :
    (copy_hardened_project env src_dir project_name projects_dir).attempts
      = (items_to_copy.filter (fun it => memB it.1 env.srcItems)).map
          (fun it => (it.1, !memB it.1 env.failing))
        ++ env.globAll.map (fun f => (f, !memB f env.failing))
    ∧ ((copy_hardened_project env src_dir project_name projects_dir).success
          = true
        ↔ ∀ a ∈ (copy_hardened_project env src_dir project_name
            projects_dir).attempts, a.2 = true) := by
  constructor
  · simp only [copy_hardened_project, h1, h2, Bool.true_eq_false, if_false]
    rw [List.map_append, List.flatten_append, itemAttempts_eq, globAttempts_eq]
  · simp only [copy_hardened_project, h1, h2, Bool.true_eq_false, if_false]
    rw [decide_eq_true_eq]
    exact List.countP_eq_length

/-- Witness for C8: a concrete run in which `docs/info.md`, `LICENSE` and
the stats directory are missing from the source still returns success. -/
theorem copy_hardened_missing_skipped_success_witness :
    (copy_hardened_project envMissingRequired "src" "tt_um_x"
        "projects").success = true
    ∧ memB "docs/info.md" envMissingRequired.srcItems = false := by
  refine ⟨?_, by decide⟩
  exact ((copy_hardened_missing_skipped_success envMissingRequired "src"
    "tt_um_x" "projects" rfl rfl).2).mpr (by decide)

end TTScripts
